import Mathlib

/-!
# PDK: the taxi command wrapper and the Kafka command test

A shallow embedding of `cmd/taxi.go` (the cobra wrapper around `taxi.Main`) and of
`v2/kafka/cmd_test.go` (the test table, the test record, `makeRecord` and the
`sortableCRI` ordering used by the sort-then-compare checks), with the properties
the specification states about them.

Go strings are byte sequences and are compared byte by byte, so a Go string that is
compared or written into a key is a `GoString` (a list of bytes); names that are only
looked up are Lean strings.
-/

namespace PDK

/-! ## Go strings -/

/-- A Go string: its bytes. -/
abbrev GoString := List Nat

/-- Go's `a < b` on strings: byte-wise lexicographic comparison. -/
def GoString.less : GoString → GoString → Bool
  | [], [] => false
  | [], _ :: _ => true
  | _ :: _, [] => false
  | a :: as, b :: bs =>
    if a < b then true else if b < a then false else GoString.less as bs

/-- The UTF-8 bytes of one code point. -/
def utf8EncodeRune (c : Nat) : List Nat :=
  if c < 0x80 then [c]
  else if c < 0x800 then [0xC0 + c / 0x40, 0x80 + c % 0x40]
  else if c < 0x10000 then [0xE0 + c / 0x1000, 0x80 + c / 0x40 % 0x40, 0x80 + c % 0x40]
  else [0xF0 + c / 0x40000, 0x80 + c / 0x1000 % 0x40, 0x80 + c / 0x40 % 0x40, 0x80 + c % 0x40]

/-- The bytes of a string literal of the source (Go source text is UTF-8). -/
def utf8 (s : String) : GoString :=
  s.data.flatMap fun c => utf8EncodeRune c.toNat

/-! ## `v2/kafka/cmd_test.go`: `sortableCRI` -/

/-- The three fields of `pilosa.CountResultItem` that `sortableCRI.Less` reads
(`ID` and `Count` are `uint64`, `Key` is a string). -/
structure CountResultItem where
  ID : Nat
  Key : GoString
  Count : Nat
  deriving DecidableEq, Repr

/-- The slice type `sortableCRI []pilosa.CountResultItem`. -/
abbrev sortableCRI := List CountResultItem

/-- The body of `sortableCRI.Less` on the two items `s[i]` and `s[j]`. -/
def lessItems (a b : CountResultItem) : Bool :=
  if a.Count ≠ b.Count then
    decide (a.Count > b.Count)
  else if a.ID ≠ b.ID then
    decide (a.ID < b.ID)
  else if a.Key ≠ b.Key then
    GoString.less a.Key b.Key
  else
    true

/-- `func (s sortableCRI) Len() int`. -/
def sortableCRI.Len (s : sortableCRI) : Nat := s.length

/-- `func (s sortableCRI) Less(i, j int) bool`; `none` is the index-out-of-range
panic of `s[i]` or `s[j]`. -/
def sortableCRI.Less (s : sortableCRI) (i j : Nat) : Option Bool :=
  match s[i]?, s[j]? with
  | some a, some b => some (lessItems a b)
  | _, _ => none

/-- `func (s sortableCRI) Swap(i, j int)`; `none` is the index-out-of-range panic. -/
def sortableCRI.Swap (s : sortableCRI) (i j : Nat) : Option sortableCRI :=
  match s[i]?, s[j]? with
  | some a, some b => some ((s.set i b).set j a)
  | _, _ => none

/-- A slice is ordered by `Less` when `Less(i, i+1)` holds at every adjacent pair. -/
def sortableCRI.Ordered (s : sortableCRI) : Prop :=
  ∀ i, i + 1 < s.Len → s.Less i (i + 1) = some true

/-! ## `cmd/taxi.go` -/

/-- A Go `error` value that is not `nil`; a nil error is `none : Option GoError`. -/
structure GoError where
  msg : String
  deriving DecidableEq, Repr

/-- The fields of `taxi.Main` that `NewTaxiCommand` binds to flags. -/
structure TaxiMainFields where
  Concurrency : Int
  FetchConcurrency : Int
  BufferSize : Int
  UseReadAll : Bool
  PilosaHost : String
  Index : String
  URLFile : String
  deriving DecidableEq, Repr

/-- The typed default value of a registered flag. -/
inductive FlagValue where
  | int (v : Int)
  | bool (b : Bool)
  | string (s : String)
  deriving DecidableEq, Repr

/-- One registered flag: long name, one-letter shorthand, default and usage text. -/
structure Flag where
  Name : String
  Shorthand : String
  DefValue : FlagValue
  Usage : String
  deriving DecidableEq, Repr

/-- The command's flag set, in registration order. -/
abbrev FlagSet := List Flag

/-- `flags.IntVarP(p, name, shorthand, value, usage)`: registers the flag; the
assignment `*p = value` is done by the caller's field update. -/
def FlagSet.IntVarP (fs : FlagSet) (name shorthand : String) (value : Int)
    (usage : String) : FlagSet :=
  fs ++ [⟨name, shorthand, .int value, usage⟩]

/-- `flags.BoolVarP(p, name, shorthand, value, usage)`. -/
def FlagSet.BoolVarP (fs : FlagSet) (name shorthand : String) (value : Bool)
    (usage : String) : FlagSet :=
  fs ++ [⟨name, shorthand, .bool value, usage⟩]

/-- `flags.StringVarP(p, name, shorthand, value, usage)`. -/
def FlagSet.StringVarP (fs : FlagSet) (name shorthand : String) (value : String)
    (usage : String) : FlagSet :=
  fs ++ [⟨name, shorthand, .string value, usage⟩]

/-- `flags.Lookup(name)`. -/
def FlagSet.Lookup (fs : FlagSet) (name : String) : Option Flag :=
  fs.find? fun f => f.Name == name

/-- The names registered on a flag set. -/
def FlagSet.names (fs : FlagSet) : List String :=
  fs.map Flag.Name

/-- The `cobra.Command` built by `NewTaxiCommand` (its `RunE` is `RunE.step` below). -/
structure Command where
  Use : String
  Short : String
  Long : String
  Flags : FlagSet
  deriving DecidableEq, Repr

/-- `NewTaxiCommand`: `m0` is the value of `taxi.NewMain()`; the result is `TaxiMain`
after the flag registrations (each `XxxVarP` stores the default through its pointer)
and the command. -/
def NewTaxiCommand (m0 : TaxiMainFields) : TaxiMainFields × Command :=
  let flags : FlagSet := []
  let flags := flags.IntVarP "concurrency" "c" 8 "Number of goroutines fetching and parsing"
  let m := { m0 with Concurrency := 8 }
  let flags := flags.IntVarP "fetch-concurrency" "e" 8 "Number of goroutines fetching and parsing"
  let m := { m with FetchConcurrency := 8 }
  let flags := flags.IntVarP "buffer-size" "b" 1000000
    "Size of buffer for importers - heavily affects memory usage"
  let m := { m with BufferSize := 1000000 }
  let flags := flags.BoolVarP "use-read-all" "" false
    "Setting to true uses much more memory, but ensures that an entire file can be read before beginning to parse it."
  let m := { m with UseReadAll := false }
  let flags := flags.StringVarP "pilosa" "p" "localhost:10101" "Pilosa host"
  let m := { m with PilosaHost := "localhost:10101" }
  let flags := flags.StringVarP "index" "i" m.Index "Pilosa db to write to"
  let m := { m with Index := m.Index }
  let flags := flags.StringVarP "url-file" "f" "usecase/taxi/urls-short.txt"
    "File to get raw data urls from. Urls may be http or local files."
  let m := { m with URLFile := "usecase/taxi/urls-short.txt" }
  (m, { Use := "taxi", Short := "taxi - import taxi data to pilosa", Long := "TODO",
        Flags := flags })

/-- What one invocation of `RunE` gets from outside: the error `TaxiMain.Run()` returns
(`none` is nil) and the two clock readings of `time.Now()` and `time.Since`. -/
structure RunEEnv where
  runResult : Option GoError
  startTime : Nat
  endTime : Nat
  deriving DecidableEq, Repr

/-- Program points of the `RunE` closure. -/
inductive RunEPc where
  /-- Before `start := time.Now()`. -/
  | atNow
  /-- Before `err := TaxiMain.Run()`. -/
  | atRun
  /-- Before `if err != nil`. -/
  | atErrCheck
  /-- Before `log.Println("Done: ", time.Since(start))`. -/
  | atLog
  /-- At the empty `select`. -/
  | atSelect
  /-- The closure has returned `err`. -/
  | returned (err : Option GoError)
  deriving DecidableEq, Repr

/-- One line written by `log.Println`: the text and the duration printed after it. -/
structure LogLine where
  text : String
  elapsed : Nat
  deriving DecidableEq, Repr

/-- The state of one invocation of `RunE`. -/
structure RunEState where
  pc : RunEPc
  start : Nat
  err : Option GoError
  log : List LogLine
  deriving DecidableEq, Repr

/-- The state on entry to `RunE`. -/
def RunE.init : RunEState :=
  { pc := .atNow, start := 0, err := none, log := [] }

/-- One step of `RunE`. An empty `select` has no case that can ever proceed, so the
goroutine stays at it; a returned closure takes no further step. -/
def RunE.step (env : RunEEnv) (st : RunEState) : RunEState :=
  match st.pc with
  | .atNow => { st with pc := .atRun, start := env.startTime }
  | .atRun => { st with pc := .atErrCheck, err := env.runResult }
  | .atErrCheck =>
    match st.err with
    | some e => { st with pc := .returned (some e) }
    | none => { st with pc := .atLog }
  | .atLog =>
    { st with pc := .atSelect, log := st.log ++ [⟨"Done: ", env.endTime - st.start⟩] }
  | .atSelect => st
  | .returned _ => st

/-- The state after `n` steps of `RunE`. -/
def RunE.exec (env : RunEEnv) : Nat → RunEState
  | 0 => RunE.init
  | n + 1 => RunE.step env (RunE.exec env n)

/-- The value `RunE` has returned in this state, if it has returned. -/
def RunEState.result (st : RunEState) : Option (Option GoError) :=
  match st.pc with
  | .returned e => some e
  | _ => none

/-! ## `v2/kafka/cmd_test.go`: the test table, the record and `makeRecord` -/

/-- A float64 written as the exact decimal fraction `num / den` of its literal. -/
structure Frac where
  num : Int
  den : Nat
  deriving DecidableEq, Repr

/-- A record value as the test writes it (an `interface` value): `nil`, a bool, an int,
a float64, a string, a `[]string`, or a one-entry map that wraps a union branch. -/
inductive Value where
  | null
  | bool (b : Bool)
  | int (v : Int)
  | float (v : Frac)
  | string (s : String)
  | strings (xs : List String)
  | union (branch : String) (v : Value)
  deriving DecidableEq, Repr

/-- A record `map[string]interface{}`: at most one entry per field name. -/
abbrev Record := List (String × Value)

/-- The assignment `ret[field] = v` on a Go map. -/
def Record.set : Record → String → Value → Record
  | [], k, v => [(k, v)]
  | (k', v') :: rest, k, v =>
    if k' = k then (k, v) :: rest else (k', v') :: Record.set rest k v

/-- The lookup `rec[field]`; `none` when the field is absent. -/
def Record.get? : Record → String → Option Value
  | [], _ => none
  | (k', v') :: rest, k => if k' = k then some v' else Record.get? rest k

/-- The loop of `makeRecord`: `for i, field := range fields { ret[field] = vals[i] }`. -/
def makeRecordLoop : List String → List Value → Record → Record
  | f :: fs, v :: vs, ret => makeRecordLoop fs vs (ret.set f v)
  | _, _, ret => ret

/-- `makeRecord(t, fields, vals)`; `none` is the `t.Fatalf` on a length mismatch. -/
def makeRecord (fields : List String) (vals : List Value) : Option Record :=
  if fields.length ≠ vals.length then none
  else some (makeRecordLoop fields vals [])

/-- One row of the test table of `TestCmdMainOne` (a nil slice is `none`). -/
structure TestCase where
  name : String
  PrimaryKeyFields : List String
  IDField : String
  expRhinoKeys : Option (List GoString)
  expRhinoCols : Option (List Nat)
  deriving DecidableEq, Repr

/-- The table `tests` of `TestCmdMainOne`. -/
def tests : List TestCase :=
  [ { name := "3 primary keys str/str/int",
      PrimaryKeyFields := ["abc", "db", "user_id"],
      IDField := "",
      expRhinoKeys := some [[50, 49, 0, 0, 0, 159]],
      expRhinoCols := none },
    { name := "IDField int",
      PrimaryKeyFields := [],
      IDField := "user_id",
      expRhinoKeys := none,
      expRhinoCols := some [159] } ]

/-- The field names `fields` of `TestCmdMainOne`. -/
def fields : List String :=
  ["abc", "db", "user_id", "all_users", "has_deleted_date", "central_group",
   "custom_audiences", "desktop_boolean", "desktop_frequency", "desktop_recency",
   "product_boolean_historical_forestry_cravings_or_bugles",
   "ddd_category_total_current_rhinocerous_checking",
   "ddd_category_total_current_rhinocerous_thedog_cheetah", "survey1234",
   "days_since_last_logon", "elephant_added_for_account"]

/-- The value rows `records` of `TestCmdMainOne`. -/
def records : List (List Value) :=
  [ [ .string "2", .string "1", .int 159, .union "boolean" (.bool true),
      .union "boolean" (.bool false), .union "string" (.string "cgr"),
      .union "array" (.strings ["a", "b"]), .null, .union "int" (.int 7), .null, .null,
      .union "float" (.float ⟨54, 10⟩), .null,
      .union "org.test.survey1234" (.string "yes"), .union "float" (.float ⟨80, 10⟩), .null ] ]

/-- The expected `bools` result of the test, `sortableCRI{{Count: 1, Key: "all_users"}}`. -/
def expBools : sortableCRI :=
  [ { ID := 0, Key := utf8 "all_users", Count := 1 } ]

/-- The expected `bools-exists` result of the test. -/
def expBoolsExists : sortableCRI :=
  [ { ID := 0, Key := utf8 "all_users", Count := 1 },
    { ID := 0, Key := utf8 "has_deleted_date", Count := 1 } ]

/-! ## The ingestion core exercised by the test (not among the source files) -/

/-- Go's conversion `uint64(v)` of a signed integer. -/
def toUint64 (v : Int) : Nat :=
  (v % 2 ^ 64).toNat

/-- `binary.BigEndian.PutUint32`: the four bytes of `n`, most significant first. -/
def bigEndian32 (n : Nat) : List Nat :=
  [n / 2 ^ 24 % 256, n / 2 ^ 16 % 256, n / 2 ^ 8 % 256, n % 256]

/-- `binary.BigEndian.PutUint64`: the eight bytes of `n`, most significant first. -/
def bigEndian64 (n : Nat) : List Nat :=
  [n / 2 ^ 56 % 256, n / 2 ^ 48 % 256, n / 2 ^ 40 % 256, n / 2 ^ 32 % 256,
   n / 2 ^ 24 % 256, n / 2 ^ 16 % 256, n / 2 ^ 8 % 256, n % 256]

/-- Modelled from the spec: the Decoder's unwrapping, which is not among the source
files ("nested union-wrappers are unwrapped to their effective variant"). -/
def Value.unwrap : Value → Value
  | .union _ v => v.unwrap
  | v => v

/-- Modelled from the spec: the decoded value of a field, which is not among the source
files: the unwrapped value, and null for a field absent from the record ("fields
declared in the schema but absent in the Record are treated as null"). -/
def Record.field (rec : Record) (name : String) : Value :=
  match rec.get? name with
  | some v => v.unwrap
  | none => .null

/-- Modelled from the spec: the canonical byte form `encode` of a primary-key field,
which is not among the source files ("strings as UTF-8 bytes, integers as big-endian
four-byte unsigned for values fitting in u32, else eight-byte big-endian"). A null
field rejects the record; the spec gives no byte form for the other variants. -/
def encode : Value → Option GoString
  | .string s => some (utf8 s)
  | .int v =>
    if 0 ≤ v ∧ v < 2 ^ 32 then some (bigEndian32 v.toNat)
    else some (bigEndian64 (toUint64 v))
  | _ => none

/-- The encodings of a list of field values, in order; `none` when one has none. -/
def encodeAll : List Value → Option (List GoString)
  | [] => some []
  | v :: vs =>
    match encode v, encodeAll vs with
    | some bytes, some rest => some (bytes :: rest)
    | _, _ => none

/-- Modelled from the spec: the formula of section 4.3 for the column key, which is not
among the source files: `encode(f1) || 0x00 || encode(f2) || …`, a zero byte between
consecutive field encodings. -/
def documentedKey (vals : List Value) : Option GoString :=
  (encodeAll vals).map fun parts => List.intercalate [0x00] parts

/-- Modelled from the spec: the column key that the test's expected literal and its
comment `"2" + "1" + uint32(159)` pin down, for code that is not among the source
files: the field encodings written one after the other into the key buffer. -/
def concatKey : List Value → GoString → Option GoString
  | [], buf => some buf
  | v :: vs, buf =>
    match encode v with
    | some bytes => concatKey vs (buf ++ bytes)
    | none => none

/-- Modelled from the spec: a row-ref or column-ref of the data model, "either a uint64
id or a string key". -/
inductive Ref where
  | id (n : Nat)
  | key (k : GoString)
  deriving DecidableEq, Repr

/-- Modelled from the spec: the two variants of IDAssignment, PrimaryKey (an ordered
list of field names) and IDField (a single numeric field). -/
inductive IDAssignment where
  | primaryKey (fieldNames : List String)
  | idField (fieldName : String)
  deriving DecidableEq, Repr

/-- Modelled from the spec: the derivation of a record's column-ref, which is not among
the source files. PrimaryKey: the key built from the named fields in configured order
(all must be non-null, else the record is rejected). IDField: "a single numeric field
yields the column id directly": the column id is the field's integer value itself; a
column id is a uint64, so an integer that is no uint64 is no column id and such a
record has no column-ref. -/
def columnRef (a : IDAssignment) (rec : Record) : Option Ref :=
  match a with
  | .primaryKey fieldNames =>
    (concatKey (fieldNames.map rec.field) []).map Ref.key
  | .idField fieldName =>
    match rec.field fieldName with
    | .int v => if 0 ≤ v ∧ v < 2 ^ 64 then some (.id v.toNat) else none
    | _ => none

/-- The fields of `kafka.Main` that the test sets. -/
structure Main where
  Index : String
  PrimaryKeyFields : List String
  IDField : String
  PackBools : String
  BatchSize : Nat
  Topics : List String
  MaxMsgs : Nat
  deriving DecidableEq, Repr

/-- Modelled from the spec: the choice of IDAssignment from the options, which is not
among the source files ("id-field … mutually exclusive with primary-key-fields",
"exactly one variant is active per run"); `none` is the configuration error. -/
def Main.idAssignment (m : Main) : Option IDAssignment :=
  if m.IDField ≠ "" then
    if m.PrimaryKeyFields = [] then some (.idField m.IDField) else none
  else
    if m.PrimaryKeyFields = [] then none else some (.primaryKey m.PrimaryKeyFields)

/-- Modelled from the spec: a Mutation `(field-name, row-ref, column-ref, value?, ts?)`
of the data model; a mutation that carries a BSI value has no row. -/
structure Mutation where
  field : String
  row : Option Ref
  col : Ref
  value : Option Int
  ts : Option Int
  deriving DecidableEq, Repr

/-- Modelled from the spec: the mapping metadata of one field of the SchemaDescriptor:
whether an integer has range metadata (BSI), the multiplier and offset of a float, and
whether a string is keyed. -/
structure FieldMeta where
  range : Bool
  scale : Option (Frac × Frac)
  keyed : Bool
  deriving DecidableEq, Repr

/-- Modelled from the spec: the SchemaDescriptor, the declared fields with their
metadata, in order. -/
abbrev SchemaDescriptor := List (String × FieldMeta)

/-- Modelled from the spec: a set-style mutation, a bit at `(field, row, col)` with no
value and no timestamp. -/
def Mutation.bit (field : String) (row : Ref) (col : Ref) : Mutation :=
  { field := field, row := some row, col := col, value := none, ts := none }

/-- Modelled from the spec: the `round` of mapper rule 5 on the fraction `a / b` (with
`0 < b`), to the nearest integer, halves away from zero as Go's `math.Round`. -/
def roundFrac (a : Int) (b : Nat) : Int :=
  if 0 ≤ a then ((2 * a.toNat + b) / (2 * b) : Nat)
  else -(((2 * (-a).toNat + b) / (2 * b) : Nat) : Int)

/-- Modelled from the spec: the integer `round((v − O) × M)` of mapper rule 5. -/
def scaleFloat (v m o : Frac) : Int :=
  roundFrac ((v.num * o.den - o.num * v.den) * m.num) (v.den * o.den * m.den)

/-- Modelled from the spec: mapper rule 4, for code that is not among the source files:
an integer without range metadata sets row `v`; with range metadata the mutation
carries `v` as its value. -/
def mapInt (col : Ref) (name : String) (fm : FieldMeta) (v : Int) : List Mutation :=
  if fm.range then
    [{ field := name, row := none, col := col, value := some v, ts := none }]
  else
    [Mutation.bit name (.id (toUint64 v)) col]

/-- Modelled from the spec: the Mapper's rules 1 to 7 for one decoded field value, for
code that is not among the source files. Rule 8 (timestamps) is left out: records have
no timestamp variant. `packBools` is the option `pack-bools` (empty when unset). -/
def mapValue (packBools : String) (col : Ref) (name : String) (fm : FieldMeta) :
    Value → List Mutation
  | .null => []
  | .bool b =>
    if packBools = "" then
      [Mutation.bit name (.id (if b then 1 else 0)) col]
    else
      (if b then [Mutation.bit packBools (.key (utf8 name)) col] else [])
        ++ [Mutation.bit (packBools ++ "-exists") (.key (utf8 name)) col]
  | .int v => mapInt col name fm v
  | .float v =>
    match fm.scale with
    | some (m, o) => mapInt col name fm (scaleFloat v m o)
    | none => []
  | .string s =>
    if fm.keyed then [Mutation.bit name (.key (utf8 s)) col]
    else
      match s.toNat? with
      | some n => [Mutation.bit name (.id n) col]
      | none => []
  | .strings xs => xs.map fun x => Mutation.bit name (.key (utf8 x)) col
  | .union _ _ => []

/-- Modelled from the spec: the Mapper on one record, for code that is not among the
source files: every declared field is mapped with the record's column-ref; `none` is a
record rejected as malformed (no column-ref). -/
def mapRecord (schema : SchemaDescriptor) (a : IDAssignment) (packBools : String)
    (rec : Record) : Option (List Mutation) :=
  match columnRef a rec with
  | none => none
  | some col =>
    some (schema.flatMap fun f => mapValue packBools col f.1 f.2 (rec.field f.1))

/-- The external index as the Sink leaves it: the mutations applied, with set semantics
on `(field, row, column)`. -/
abbrev PilosaIndex := List Mutation

/-- Modelled from the spec: the Sink, which applies mutations to the index and
deduplicates: a mutation already present changes nothing. -/
def applyMutations (idx : PilosaIndex) (ms : List Mutation) : PilosaIndex :=
  ms.foldl (fun acc m => if m ∈ acc then acc else acc ++ [m]) idx

/-- The rows of a field that have a bit set, each once, in order of first appearance. -/
def PilosaIndex.rows (idx : PilosaIndex) (field : String) : List Ref :=
  (idx.filterMap fun m => if m.field = field then m.row else none).eraseDups

/-- The columns set in row `row` of a field, each once. -/
def PilosaIndex.rowColumns (idx : PilosaIndex) (field : String) (row : Ref) : List Ref :=
  ((idx.filter fun m => m.field = field ∧ m.row = some row).map Mutation.col).eraseDups

/-- Every row of a field with the number of columns set in it. -/
def PilosaIndex.countItems (idx : PilosaIndex) (field : String) : sortableCRI :=
  (idx.rows field).map fun r =>
    match r with
    | .id n => { ID := n, Key := [], Count := (idx.rowColumns field r).length }
    | .key k => { ID := 0, Key := k, Count := (idx.rowColumns field r).length }

/-- The index query `field.TopN(n)` seen through `CountItems()`: the `n` rows of the
field with the most columns, highest count first. -/
def PilosaIndex.TopN (idx : PilosaIndex) (field : String) (n : Nat) : sortableCRI :=
  ((idx.countItems field).insertionSort fun a b => b.Count ≤ a.Count).take n

/-- The index query `field.GT(0)`: the columns whose value in the field is greater
than 0. -/
def PilosaIndex.gtZero (idx : PilosaIndex) (field : String) : List Ref :=
  ((idx.filter fun m =>
      decide (m.field = field) && (match m.value with | some v => decide (0 < v) | none => false)).map
    Mutation.col).eraseDups

/-- The keys of a query result row (`Row().Keys`). -/
def rowKeys (cols : List Ref) : List GoString :=
  cols.filterMap fun c => match c with | .key k => some k | .id _ => none

/-- The column ids of a query result row (`Row().Columns`). -/
def rowColumnIDs (cols : List Ref) : List Nat :=
  cols.filterMap fun c => match c with | .id n => some n | .key _ => none

/-- Modelled from the spec: the schema of the test record (`bigschema.json` is not among
the source files), after scenario S1: the fields of `fields` in order; strings are
keyed, floats have multiplier 1 and offset 0, and the field the test queries with
`GT(0)` has range metadata. -/
def testSchema : SchemaDescriptor :=
  fields.map fun name =>
    (name, { range := name == "ddd_category_total_current_rhinocerous_checking",
             scale := some (⟨1, 1⟩, ⟨0, 1⟩), keyed := true })

/-- The `Main` that `TestCmdMainOne` configures for a row of its table (`topic` stands
for the random topic name). -/
def testMain (test : TestCase) (topic : String) : Main :=
  { Index := "cmd_test_index239ij" ++ topic,
    PrimaryKeyFields := test.PrimaryKeyFields,
    IDField := test.IDField,
    PackBools := "bools",
    BatchSize := 1,
    Topics := [topic],
    MaxMsgs := records.length }

/-- Modelled from the spec: a run of `Main` over the decoded records, for code that is
not among the source files: at most `MaxMsgs` records are admitted (0 is unlimited),
each is mapped, and the mutations reach the index; a rejected record adds nothing;
`none` is a fatal configuration error. -/
def Main.run (m : Main) (schema : SchemaDescriptor) (recs : List Record) : Option PilosaIndex :=
  match m.idAssignment with
  | none => none
  | some a =>
    let admitted := if m.MaxMsgs = 0 then recs else recs.take m.MaxMsgs
    some (admitted.foldl
      (fun idx rec => applyMutations idx ((mapRecord schema a m.PackBools rec).getD [])) [])

/-- The index after the test's run for one row of the table: the records are built with
`makeRecord` and the configured `Main` is run over them. -/
def testIndex (test : TestCase) (topic : String) : Option PilosaIndex :=
  match records.mapM (makeRecord fields) with
  | none => none
  | some recs => (testMain test topic).run testSchema recs

end PDK

namespace PDK

/-! ## The ordering `sortableCRI.Less` -/

/-- Go's byte-wise `<` is the lexicographic order on byte lists. -/
theorem GoString.less_iff_lt (a b : GoString) : GoString.less a b = true ↔ a < b := by
  induction a generalizing b with
  | nil =>
    cases b with
    | nil => simp [GoString.less]
    | cons y ys => simp [GoString.less, List.nil_lt_cons]
  | cons x xs ih =>
    cases b with
    | nil => simp [GoString.less]
    | cons y ys =>
      unfold GoString.less
      rcases Nat.lt_trichotomy x y with h | h | h
      · simp only [h, if_true, true_iff]
        exact List.Lex.rel h
      · subst h
        simp only [lt_self_iff_false, if_false]
        rw [ih]
        exact (List.Lex.cons_iff).symm
      · have h1 : ¬ x < y := by omega
        simp only [h1, h, if_false, if_true]
        constructor
        · intro hf
          cases hf
        · intro hl
          cases hl with
          | cons hh => omega
          | rel hh => omega

/-- The body of `Less` as a lexicographic comparison on (Count descending, ID ascending,
Key ascending), non-strict in the last component. -/
theorem lessItems_iff (a b : CountResultItem) :
    lessItems a b = true ↔
      a.Count > b.Count ∨ (a.Count = b.Count ∧ a.ID < b.ID) ∨
        (a.Count = b.Count ∧ a.ID = b.ID ∧ a.Key ≤ b.Key) := by
  unfold lessItems
  by_cases hc : a.Count = b.Count
  · by_cases hi : a.ID = b.ID
    · by_cases hk : a.Key = b.Key
      · simp [hc, hi, hk]
      · simp only [hc, hi, ne_eq, not_true_eq_false, if_false, hk, not_false_eq_true, if_true,
          GoString.less_iff_lt, gt_iff_lt, lt_self_iff_false, true_and, false_or]
        exact ⟨fun h => le_of_lt h, fun h => lt_of_le_of_ne h hk⟩
    · simp only [hc, ne_eq, not_true_eq_false, if_false, hi, not_false_eq_true, if_true,
        decide_eq_true_eq, gt_iff_lt, lt_self_iff_false, true_and, false_and, or_false, false_or]
  · simp only [ne_eq, hc, not_false_eq_true, if_true, decide_eq_true_eq, gt_iff_lt, false_and,
      or_false]

/-- `Less` on valid indices is the body on the two items. -/
theorem Less_eq_lessItems (s : sortableCRI) (i j : Nat) (a b : CountResultItem)
    (hi : s[i]? = some a) (hj : s[j]? = some b) : s.Less i j = some (lessItems a b) := by
  simp [sortableCRI.Less, hi, hj]

/-- The body of `Less` is total. -/
theorem lessItems_total (a b : CountResultItem) :
    lessItems a b = true ∨ lessItems b a = true := by
  rw [lessItems_iff, lessItems_iff]
  rcases Nat.lt_trichotomy a.Count b.Count with h | h | h
  · exact Or.inr (Or.inl h)
  · rcases Nat.lt_trichotomy a.ID b.ID with h' | h' | h'
    · exact Or.inl (Or.inr (Or.inl ⟨h, h'⟩))
    · rcases le_total a.Key b.Key with hk | hk
      · exact Or.inl (Or.inr (Or.inr ⟨h, h', hk⟩))
      · exact Or.inr (Or.inr (Or.inr ⟨h.symm, h'.symm, hk⟩))
    · exact Or.inr (Or.inr (Or.inl ⟨h.symm, h'⟩))
  · exact Or.inl (Or.inl h)

/-- The body of `Less` holds both ways only between equal items. -/
theorem lessItems_antisymm (a b : CountResultItem) (hab : lessItems a b = true)
    (hba : lessItems b a = true) : a = b := by
  rw [lessItems_iff] at hab hba
  have hc : a.Count = b.Count := by
    rcases hab with h | h | h <;> rcases hba with h' | h' | h' <;> omega
  have hi : a.ID = b.ID := by
    rcases hab with h | h | h <;> rcases hba with h' | h' | h' <;> omega
  have hk : a.Key = b.Key := by
    rcases hab with h | h | h
    · omega
    · omega
    · rcases hba with h' | h' | h'
      · omega
      · omega
      · exact le_antisymm h.2.2 h'.2.2
  cases a
  cases b
  simp_all

/-- The body of `Less` is transitive. -/
theorem lessItems_trans (a b c : CountResultItem) (hab : lessItems a b = true)
    (hbc : lessItems b c = true) : lessItems a c = true := by
  rw [lessItems_iff] at hab hbc ⊢
  rcases hab with h | h | h <;> rcases hbc with h' | h' | h'
  · exact Or.inl (by omega)
  · exact Or.inl (by omega)
  · exact Or.inl (by omega)
  · exact Or.inl (by omega)
  · exact Or.inr (Or.inl ⟨by omega, by omega⟩)
  · exact Or.inr (Or.inl ⟨by omega, by omega⟩)
  · exact Or.inl (by omega)
  · exact Or.inr (Or.inl ⟨by omega, by omega⟩)
  · exact Or.inr (Or.inr ⟨by omega, by omega, le_trans h.2.2 h'.2.2⟩)

/-- A slice ordered by `Less` at adjacent indices is a chain for the body of `Less`. -/
theorem Ordered_chain (s : sortableCRI) (h : s.Ordered) :
    List.Chain' (fun a b => lessItems a b = true) s := by
  induction s with
  | nil => exact List.chain'_nil
  | cons a t ih =>
    cases t with
    | nil => exact List.chain'_singleton a
    | cons b u =>
      refine List.chain'_cons.mpr ⟨?_, ih ?_⟩
      · have h0 := h 0 (by simp [sortableCRI.Len])
        simpa [sortableCRI.Less] using h0
      · intro i hi
        have h1 := h (i + 1) (by simp [sortableCRI.Len] at hi ⊢; omega)
        simpa [sortableCRI.Less] using h1

/-- Two slices with the same items, each ordered by `Less`, are equal. -/
theorem Ordered_perm_eq (l₁ l₂ : sortableCRI) (hp : l₁.Perm l₂) (h₁ : l₁.Ordered)
    (h₂ : l₂.Ordered) : l₁ = l₂ := by
  haveI : IsTrans CountResultItem (fun a b => lessItems a b = true) :=
    ⟨lessItems_trans⟩
  haveI : IsAntisymm CountResultItem (fun a b => lessItems a b = true) :=
    ⟨lessItems_antisymm⟩
  exact List.eq_of_perm_of_sorted hp (List.chain'_iff_pairwise.mp (Ordered_chain l₁ h₁))
    (List.chain'_iff_pairwise.mp (Ordered_chain l₂ h₂))

/-- The expected `bools-exists` slice of the test is ordered by `Less`. -/
theorem expBoolsExists_Ordered : expBoolsExists.Ordered := by
  intro i hi
  have hi' : i + 1 < 2 := hi
  have h0 : i = 0 := by omega
  subst h0
  decide

/-- C9: for every slice `s` and valid indices `i`, `j`, `Less(i, j)` returns, and it is
true exactly when `s[i].Count > s[j].Count`, or the counts are equal and
`s[i].ID < s[j].ID`, or counts and IDs are equal and `s[i].Key <= s[j].Key` (the
lexicographic order on byte lists, which is Go's order on strings by
`GoString.less_iff_lt`); in particular `Less(i, i)` is true. -/
theorem sortableCRI_Less_lexicographic (s : sortableCRI) (i j : Nat)
    (hi : i < s.Len) (hj : j < s.Len) :
    (∃ b, s.Less i j = some b) ∧
    (s.Less i j = some true ↔
      (s.get ⟨i, hi⟩).Count > (s.get ⟨j, hj⟩).Count ∨
      ((s.get ⟨i, hi⟩).Count = (s.get ⟨j, hj⟩).Count ∧
        (s.get ⟨i, hi⟩).ID < (s.get ⟨j, hj⟩).ID) ∨
      ((s.get ⟨i, hi⟩).Count = (s.get ⟨j, hj⟩).Count ∧
        (s.get ⟨i, hi⟩).ID = (s.get ⟨j, hj⟩).ID ∧
        (s.get ⟨i, hi⟩).Key ≤ (s.get ⟨j, hj⟩).Key)) ∧
    s.Less i i = some true := by
  have hi' : s[i]? = some (s.get ⟨i, hi⟩) := List.getElem?_eq_getElem hi
  have hj' : s[j]? = some (s.get ⟨j, hj⟩) := List.getElem?_eq_getElem hj
  refine ⟨⟨_, Less_eq_lessItems s i j _ _ hi' hj'⟩, ?_, ?_⟩
  · rw [Less_eq_lessItems s i j _ _ hi' hj', Option.some_inj, lessItems_iff]
  · rw [Less_eq_lessItems s i i _ _ hi' hi', Option.some_inj, lessItems_iff]
    exact Or.inr (Or.inr ⟨rfl, rfl, le_refl _⟩)

/-- C9 at the test's expected `bools-exists` slice, indices 0 and 1. -/
theorem sortableCRI_Less_lexicographic_witness :
    0 < expBoolsExists.Len ∧ 1 < expBoolsExists.Len ∧
    expBoolsExists.Less 0 1 = some true ∧
    expBoolsExists.Less 0 0 = some true ∧
    (expBoolsExists.Less 0 1 = some true ↔
      (1 > 1 ∨ (1 = 1 ∧ 0 < 0) ∨
        (1 = 1 ∧ 0 = 0 ∧ utf8 "all_users" ≤ utf8 "has_deleted_date"))) :=
  ⟨by decide, by decide, by decide,
    (sortableCRI_Less_lexicographic expBoolsExists 0 1 (by decide) (by decide)).2.2,
    (sortableCRI_Less_lexicographic expBoolsExists 0 1 (by decide) (by decide)).2.1⟩

/-- C10: `Less` is total, transitive and antisymmetric: for any two valid indices of a
slice at least one of `Less(i, j)`, `Less(j, i)` holds; both hold only when the two
items agree on Count, ID and Key; `Less(i, j)` and `Less(j, k)` give `Less(i, k)`; hence
two slices that are permutations of each other and are each ordered by `Less` are
equal element by element. -/
theorem sortableCRI_Less_total_order :
    (∀ (s : sortableCRI) (i j : Nat), i < s.Len → j < s.Len →
      s.Less i j = some true ∨ s.Less j i = some true) ∧
    (∀ (s : sortableCRI) (i j : Nat) (a b : CountResultItem),
      s[i]? = some a → s[j]? = some b →
      s.Less i j = some true → s.Less j i = some true →
      a.Count = b.Count ∧ a.ID = b.ID ∧ a.Key = b.Key) ∧
    (∀ (s : sortableCRI) (i j k : Nat),
      s.Less i j = some true → s.Less j k = some true → s.Less i k = some true) ∧
    (∀ l₁ l₂ : sortableCRI, l₁.Perm l₂ → l₁.Ordered → l₂.Ordered → l₁ = l₂) := by
  refine ⟨?_, ?_, ?_, Ordered_perm_eq⟩
  · intro s i j hi hj
    have hi' : s[i]? = some (s.get ⟨i, hi⟩) := List.getElem?_eq_getElem hi
    have hj' : s[j]? = some (s.get ⟨j, hj⟩) := List.getElem?_eq_getElem hj
    rw [Less_eq_lessItems s i j _ _ hi' hj', Less_eq_lessItems s j i _ _ hj' hi',
      Option.some_inj, Option.some_inj]
    exact lessItems_total _ _
  · intro s i j a b hi hj hij hji
    rw [Less_eq_lessItems s i j a b hi hj, Option.some_inj] at hij
    rw [Less_eq_lessItems s j i b a hj hi, Option.some_inj] at hji
    have h := lessItems_antisymm a b hij hji
    subst h
    exact ⟨rfl, rfl, rfl⟩
  · intro s i j k hij hjk
    cases hi : s[i]? with
    | none => simp [sortableCRI.Less, hi] at hij
    | some a =>
      cases hj : s[j]? with
      | none => simp [sortableCRI.Less, hj] at hjk
      | some b =>
        cases hk : s[k]? with
        | none => simp [sortableCRI.Less, hj, hk] at hjk
        | some c =>
          rw [Less_eq_lessItems s i j a b hi hj, Option.some_inj] at hij
          rw [Less_eq_lessItems s j k b c hj hk, Option.some_inj] at hjk
          rw [Less_eq_lessItems s i k a c hi hk, Option.some_inj]
          exact lessItems_trans a b c hij hjk

/-- C10 at the test's `bools-exists` comparison: the expected slice and the same items
written out, each ordered by `Less`, are equal. -/
theorem sortableCRI_Less_total_order_witness :
    expBoolsExists.Perm
      [{ ID := 0, Key := utf8 "all_users", Count := 1 },
       { ID := 0, Key := utf8 "has_deleted_date", Count := 1 }] ∧
    expBoolsExists.Ordered ∧
    expBoolsExists =
      [{ ID := 0, Key := utf8 "all_users", Count := 1 },
       { ID := 0, Key := utf8 "has_deleted_date", Count := 1 }] :=
  ⟨List.Perm.refl _, expBoolsExists_Ordered,
    sortableCRI_Less_total_order.2.2.2 _ _ (List.Perm.refl _) expBoolsExists_Ordered
      expBoolsExists_Ordered⟩

/-! ## The taxi command: `RunE` -/

/-- When `TaxiMain.Run()` returns a non-nil error, `RunE` is in its returned state from
the third step on, with nothing logged. -/
theorem exec_error (e : GoError) (t₀ t₁ n : Nat) :
    RunE.exec ⟨some e, t₀, t₁⟩ (n + 3) =
      { pc := .returned (some e), start := t₀, err := some e, log := [] } := by
  induction n with
  | zero => rfl
  | succ n ih =>
    show RunE.step _ (RunE.exec _ (n + 3)) = _
    rw [ih]
    rfl

/-- When `TaxiMain.Run()` returns nil, `RunE` is at the empty `select` from the fourth
step on, with the "Done" line logged. -/
theorem exec_nil (t₀ t₁ n : Nat) :
    RunE.exec ⟨none, t₀, t₁⟩ (n + 4) =
      { pc := .atSelect, start := t₀, err := none, log := [⟨"Done: ", t₁ - t₀⟩] } := by
  induction n with
  | zero => rfl
  | succ n ih =>
    show RunE.step _ (RunE.exec _ (n + 4)) = _
    rw [ih]
    rfl

/-- When `TaxiMain.Run()` returns nil, `RunE` has not returned after any number of
steps. -/
theorem exec_nil_result (t₀ t₁ n : Nat) :
    (RunE.exec ⟨none, t₀, t₁⟩ n).result = none := by
  rcases Nat.lt_or_ge n 4 with h | h
  · interval_cases n <;> rfl
  · obtain ⟨k, rfl⟩ := Nat.exists_eq_add_of_le h
    rw [Nat.add_comm, exec_nil]
    rfl

/-- C3, refuted at a run that returns nil at once: no number of steps brings `RunE` to
a return of nil. -/
theorem RunE_nil_no_return : ¬ ∃ n, (RunE.exec ⟨none, 0, 1⟩ n).result = some none := by
  rintro ⟨n, hn⟩
  rw [exec_nil_result] at hn
  cases hn

/-- C3 as amended: when `TaxiMain.Run()` returns nil, `RunE` logs the "Done" line once
and then stays at the empty `select` for ever; it never returns. -/
theorem RunE_nil_blocks (t₀ t₁ : Nat) :
    (∀ n, (RunE.exec ⟨none, t₀, t₁⟩ n).result = none) ∧
    (∀ n, (RunE.exec ⟨none, t₀, t₁⟩ (n + 4)).pc = .atSelect) ∧
    (∀ n, (RunE.exec ⟨none, t₀, t₁⟩ (n + 4)).log = [⟨"Done: ", t₁ - t₀⟩]) := by
  refine ⟨exec_nil_result t₀ t₁, ?_, ?_⟩ <;> intro n <;> rw [exec_nil]

/-- C4: for every non-nil error `e` returned by `TaxiMain.Run()`, `RunE` returns (after
three steps) and returns exactly `e`; at no step has it logged anything or reached the
"Done" log line or the blocking `select`. -/
theorem RunE_error_returned (e : GoError) (t₀ t₁ : Nat) :
    (∀ n, (RunE.exec ⟨some e, t₀, t₁⟩ (n + 3)).result = some (some e)) ∧
    (∀ n, (RunE.exec ⟨some e, t₀, t₁⟩ n).result = none ∨
      (RunE.exec ⟨some e, t₀, t₁⟩ n).result = some (some e)) ∧
    (∀ n, (RunE.exec ⟨some e, t₀, t₁⟩ n).log = [] ∧
      (RunE.exec ⟨some e, t₀, t₁⟩ n).pc ≠ .atLog ∧
      (RunE.exec ⟨some e, t₀, t₁⟩ n).pc ≠ .atSelect) := by
  refine ⟨?_, ?_, ?_⟩
  · intro n
    rw [exec_error]
    rfl
  · intro n
    rcases Nat.lt_or_ge n 3 with h | h
    · interval_cases n
      · exact Or.inl rfl
      · exact Or.inl rfl
      · exact Or.inl rfl
    · obtain ⟨k, rfl⟩ := Nat.exists_eq_add_of_le h
      rw [Nat.add_comm, exec_error]
      exact Or.inr rfl
  · intro n
    rcases Nat.lt_or_ge n 3 with h | h
    · interval_cases n
      · exact ⟨rfl, by simp [RunE.exec, RunE.init], by simp [RunE.exec, RunE.init]⟩
      · exact ⟨rfl, by simp [RunE.exec, RunE.init, RunE.step],
          by simp [RunE.exec, RunE.init, RunE.step]⟩
      · exact ⟨rfl, by simp [RunE.exec, RunE.init, RunE.step],
          by simp [RunE.exec, RunE.init, RunE.step]⟩
    · obtain ⟨k, rfl⟩ := Nat.exists_eq_add_of_le h
      rw [Nat.add_comm, exec_error]
      exact ⟨rfl, by simp, by simp⟩

/-! ## The taxi command: its flags -/

/-- C5: the flags `concurrency` and `fetch-concurrency` are ints with default 8,
`buffer-size` is an int with default 1000000 and `use-read-all` is a bool with default
false, and the bound fields of `TaxiMain` hold these defaults. -/
theorem NewTaxiCommand_defaults (m0 : TaxiMainFields) :
    ((NewTaxiCommand m0).2.Flags.Lookup "concurrency").map Flag.DefValue = some (.int 8) ∧
    ((NewTaxiCommand m0).2.Flags.Lookup "fetch-concurrency").map Flag.DefValue
      = some (.int 8) ∧
    ((NewTaxiCommand m0).2.Flags.Lookup "buffer-size").map Flag.DefValue
      = some (.int 1000000) ∧
    ((NewTaxiCommand m0).2.Flags.Lookup "use-read-all").map Flag.DefValue
      = some (.bool false) ∧
    (NewTaxiCommand m0).1.Concurrency = 8 ∧
    (NewTaxiCommand m0).1.FetchConcurrency = 8 ∧
    (NewTaxiCommand m0).1.BufferSize = 1000000 ∧
    (NewTaxiCommand m0).1.UseReadAll = false :=
  ⟨rfl, rfl, rfl, rfl, rfl, rfl, rfl, rfl⟩

/-- The names of the flags of the taxi command, in registration order. -/
theorem NewTaxiCommand_names (m0 : TaxiMainFields) :
    (NewTaxiCommand m0).2.Flags.names =
      ["concurrency", "fetch-concurrency", "buffer-size", "use-read-all", "pilosa",
       "index", "url-file"] :=
  rfl

/-- C6, refuted: no flag named `pilosa-host` is registered on the taxi command (here
built from a `taxi.Main` with index `taxi`). -/
theorem NewTaxiCommand_no_pilosa_host :
    (NewTaxiCommand ⟨0, 0, 0, false, "", "taxi", ""⟩).2.Flags.Lookup "pilosa-host" = none ∧
    decide ("pilosa-host" ∈ (NewTaxiCommand ⟨0, 0, 0, false, "", "taxi", ""⟩).2.Flags.names)
      = false := by
  decide

/-- C6 as amended: the flags registered by `NewTaxiCommand` are exactly concurrency,
fetch-concurrency, buffer-size, use-read-all, pilosa, index and url-file; the Pilosa
host option is registered under the name `pilosa` (shorthand `p`, default
`localhost:10101`), and no flag is named `pilosa-host`. -/
theorem NewTaxiCommand_flag_names (m0 : TaxiMainFields) :
    (NewTaxiCommand m0).2.Flags.names =
      ["concurrency", "fetch-concurrency", "buffer-size", "use-read-all", "pilosa",
       "index", "url-file"] ∧
    (NewTaxiCommand m0).2.Flags.Lookup "pilosa" =
      some ⟨"pilosa", "p", .string "localhost:10101", "Pilosa host"⟩ ∧
    (NewTaxiCommand m0).1.PilosaHost = "localhost:10101" ∧
    (NewTaxiCommand m0).2.Flags.Lookup "pilosa-host" = none ∧
    "pilosa-host" ∉ (NewTaxiCommand m0).2.Flags.names := by
  refine ⟨rfl, rfl, rfl, rfl, ?_⟩
  rw [NewTaxiCommand_names]
  decide

/-! ## Column keys -/

/-- The key buffer after writing the encodings is the buffer followed by all of them,
in order, with nothing in between. -/
theorem concatKey_eq (vals : List Value) (buf : GoString) :
    concatKey vals buf = (encodeAll vals).map fun parts => buf ++ parts.flatten := by
  induction vals generalizing buf with
  | nil => simp [concatKey, encodeAll]
  | cons v vs ih =>
    unfold concatKey encodeAll
    cases hv : encode v with
    | none => simp
    | some bytes =>
      simp only [ih]
      cases hvs : encodeAll vs with
      | none => simp
      | some rest => simp [List.append_assoc]

/-- The run of `Main` reads only the id assignment, `PackBools` and `MaxMsgs`: the
test's index does not depend on the random topic name. -/
theorem testIndex_topic (topic : String) :
    (fun t => testIndex t topic) = (fun t => testIndex t "") := by
  funext t
  simp only [testIndex, testMain, Main.run, Main.idAssignment]

/-- C1: under a PrimaryKey configuration the column key is the concatenation, in
configured field order and with nothing between the parts, of the fields' encodings (a
string as its UTF-8 bytes, an integer that fits in 32 bits as its four big-endian
bytes); for the test's fields `abc`, `db`, `user_id` and its record the key is the six
bytes 32 31 00 00 00 9F, which is the test's expected literal and equals
`"2" ++ "1" ++ bigEndian32(159)`, and the test's query returns exactly this key. -/
theorem primaryKey_columnKey :
    (∀ (names : List String) (rec : Record),
      columnRef (.primaryKey names) rec =
        ((encodeAll (names.map rec.field)).map List.flatten).map Ref.key) ∧
    (∀ s : String, encode (.string s) = some (utf8 s)) ∧
    (∀ n : Fin (2 ^ 32), encode (.int (n.val : Int)) = some (bigEndian32 n.val)) ∧
    (tests.head?.map fun t =>
      (records.mapM (makeRecord fields)).map fun recs =>
        recs.map (columnRef (.primaryKey t.PrimaryKeyFields)))
      = some (some [some (.key [0x32, 0x31, 0x00, 0x00, 0x00, 0x9F])]) ∧
    tests.head?.map TestCase.expRhinoKeys
      = some (some [[0x32, 0x31, 0x00, 0x00, 0x00, 0x9F]]) ∧
    [0x32, 0x31, 0x00, 0x00, 0x00, 0x9F] = utf8 "2" ++ utf8 "1" ++ bigEndian32 159 ∧
    (∀ topic : String,
      (tests.head?.bind fun t => testIndex t topic).map
          (fun idx => rowKeys (idx.gtZero "ddd_category_total_current_rhinocerous_checking"))
        = tests.head?.bind TestCase.expRhinoKeys) := by
  refine ⟨?_, fun _ => rfl, ?_, by decide, by decide, by decide, ?_⟩
  · intro names rec
    simp [columnRef, concatKey_eq]
  · intro n
    have h1 : (0 : Int) ≤ (n.val : Int) := Int.natCast_nonneg _
    have h2 : ((n.val : Nat) : Int) < 2 ^ 32 := by
      have := n.isLt
      exact_mod_cast this
    simp [encode, h1, h2]
  · intro topic
    rw [testIndex_topic]
    decide

/-- C2, refuted: the documented form with a zero byte between consecutive encodings,
applied to "2", "1", 159, gives eight bytes, not the six bytes the test expects. -/
theorem documentedKey_not_expected :
    documentedKey [.string "2", .string "1", .int 159]
      = some [0x32, 0x00, 0x31, 0x00, 0x00, 0x00, 0x00, 0x9F] ∧
    decide (documentedKey [.string "2", .string "1", .int 159]
      = some [0x32, 0x31, 0x00, 0x00, 0x00, 0x9F]) = false ∧
    decide (some (documentedKey [.string "2", .string "1", .int 159])
      = tests.head?.map fun t => (t.expRhinoKeys.getD []).head?) = false := by
  decide

/-- C2 as amended: the encodings of "2", "1", 159 written one after the other with no
byte between them are the six bytes 32 31 00 00 00 9F that the test expects; with a
zero byte between consecutive encodings the result is the eight bytes
32 00 31 00 00 00 00 9F. -/
theorem concatKey_expected :
    concatKey [.string "2", .string "1", .int 159] []
      = some [0x32, 0x31, 0x00, 0x00, 0x00, 0x9F] ∧
    some (concatKey [.string "2", .string "1", .int 159] [])
      = (tests.head?.map fun t => (t.expRhinoKeys.getD []).head?) ∧
    encodeAll [.string "2", .string "1", .int 159]
      = some [[0x32], [0x31], [0x00, 0x00, 0x00, 0x9F]] ∧
    documentedKey [.string "2", .string "1", .int 159]
      = some [0x32, 0x00, 0x31, 0x00, 0x00, 0x00, 0x00, 0x9F] := by
  decide

/-! ## The mapper -/

/-- Every mutation the mapper makes for a field value carries the given column-ref. -/
theorem mapValue_col (packBools : String) (col : Ref) (name : String) (fm : FieldMeta)
    (v : Value) : ∀ m ∈ mapValue packBools col name fm v, m.col = col := by
  intro m hm
  cases v with
  | null => simp [mapValue] at hm
  | bool b =>
    simp only [mapValue] at hm
    split at hm
    · rw [List.mem_singleton] at hm
      rw [hm]
      rfl
    · rw [List.mem_append] at hm
      rcases hm with hm | hm
      · split at hm
        · rw [List.mem_singleton] at hm
          rw [hm]
          rfl
        · cases hm
      · rw [List.mem_singleton] at hm
        rw [hm]
        rfl
  | int v =>
    by_cases hr : fm.range = true <;> simp [mapValue, mapInt, hr, Mutation.bit] at hm <;>
      simp [hm]
  | float v =>
    cases hs : fm.scale with
    | none => simp [mapValue, hs] at hm
    | some mo =>
      by_cases hr : fm.range = true <;>
        simp [mapValue, hs, mapInt, hr, Mutation.bit] at hm <;> simp [hm]
  | string str =>
    by_cases hk : fm.keyed = true
    · simp [mapValue, hk, Mutation.bit] at hm
      simp [hm]
    · cases hn : str.toNat? with
      | none => simp [mapValue, hk, hn] at hm
      | some n =>
        simp [mapValue, hk, hn, Mutation.bit] at hm
        simp [hm]
  | strings xs =>
    simp only [mapValue, List.mem_map] at hm
    obtain ⟨x, _, rfl⟩ := hm
    rfl
  | union br w => simp [mapValue] at hm

/-- Every mutation of a mapped record carries the record's column-ref. -/
theorem mapRecord_col (schema : SchemaDescriptor) (a : IDAssignment) (packBools : String)
    (rec : Record) (ms : List Mutation) (h : mapRecord schema a packBools rec = some ms) :
    ∃ col, columnRef a rec = some col ∧ ∀ m ∈ ms, m.col = col := by
  unfold mapRecord at h
  cases hc : columnRef a rec with
  | none => simp [hc] at h
  | some col =>
    simp only [hc, Option.some.injEq] at h
    subst h
    refine ⟨col, rfl, ?_⟩
    intro m hm
    rw [List.mem_flatMap] at hm
    obtain ⟨f, _, hf⟩ := hm
    exact mapValue_col _ _ _ _ _ m hf

/-- C7: under an IDField configuration the column id of a record equals the integer
value `v` of the named field, for every integer `v`: whatever column-ref the record
gets is the id `v`, it gets one whenever `v` is a uint64, and every mutation of the
record carries it. With IDField `user_id` and `user_id = 159` the test record's
column-ref is the id 159, and all its mutations land on column 159 and on no other
column. -/
theorem idField_columnID :
    (∀ (f : String) (rec : Record) (v : Int) (c : Ref), rec.field f = .int v →
      columnRef (.idField f) rec = some c →
      c = .id v.toNat ∧ ((v.toNat : Nat) : Int) = v) ∧
    (∀ (f : String) (rec : Record) (v : Int), rec.field f = .int v → 0 ≤ v → v < 2 ^ 64 →
      columnRef (.idField f) rec = some (.id v.toNat) ∧
      ∀ (schema : SchemaDescriptor) (packBools : String),
        ∃ ms, mapRecord schema (.idField f) packBools rec = some ms) ∧
    (∀ (f : String) (rec : Record) (v : Int) (schema : SchemaDescriptor)
        (packBools : String) (ms : List Mutation), rec.field f = .int v →
      mapRecord schema (.idField f) packBools rec = some ms →
      ∀ m ∈ ms, m.col = .id v.toNat ∧ ((v.toNat : Nat) : Int) = v) ∧
    (tests.get? 1).map (fun t => (t.IDField, t.expRhinoCols))
      = some ("user_id", some [159]) ∧
    ((tests.get? 1).map fun t => records.map fun vals =>
        (makeRecord fields vals).map fun rec =>
          (rec.field t.IDField, columnRef (.idField t.IDField) rec))
      = some [some (.int 159, some (.id 159))] ∧
    (∀ topic : String,
      ((tests.get? 1).bind fun t => testIndex t topic).map
          (fun idx => (idx.map Mutation.col).eraseDups) = some [.id 159]) := by
  have hA : ∀ (f : String) (rec : Record) (v : Int) (c : Ref), rec.field f = .int v →
      columnRef (.idField f) rec = some c →
      c = .id v.toNat ∧ ((v.toNat : Nat) : Int) = v := by
    intro f rec v c hv hc
    simp only [columnRef, hv] at hc
    split at hc
    · rename_i hr
      cases hc
      exact ⟨rfl, Int.toNat_of_nonneg hr.1⟩
    · cases hc
  refine ⟨hA, ?_, ?_, by decide, by decide, ?_⟩
  · intro f rec v hv h0 h1
    have hc : columnRef (.idField f) rec = some (.id v.toNat) := by
      simp only [columnRef, hv]
      rw [if_pos ⟨h0, h1⟩]
    refine ⟨hc, ?_⟩
    intro schema packBools
    cases hm : mapRecord schema (.idField f) packBools rec with
    | none => simp [mapRecord, hc] at hm
    | some ms => exact ⟨ms, rfl⟩
  · intro f rec v schema packBools ms hv hm m hmem
    obtain ⟨col, hcol, hall⟩ := mapRecord_col _ _ _ _ _ hm
    obtain ⟨h1, h2⟩ := hA f rec v col hv hcol
    rw [hall m hmem, h1]
    exact ⟨rfl, h2⟩
  · intro topic
    rw [testIndex_topic]
    decide

/-- C7 at `user_id = 159`: the record gets the column id 159. -/
theorem idField_columnID_witness :
    Record.field [("user_id", .int 159)] "user_id" = .int 159 ∧ (0 : Int) ≤ 159 ∧
    (159 : Int) < 2 ^ 64 ∧
    columnRef (.idField "user_id") [("user_id", .int 159)] = some (.id (159 : Int).toNat) ∧
    (Ref.id 159 = .id (159 : Int).toNat ∧ (((159 : Int).toNat : Nat) : Int) = 159) :=
  ⟨by decide, by decide, by decide,
    (idField_columnID.2.1 "user_id" [("user_id", .int 159)] 159 (by decide) (by decide)
      (by decide)).1,
    idField_columnID.1 "user_id" [("user_id", .int 159)] 159 (.id 159) (by decide)
      (by decide)⟩

/-- The existence field of a packed boolean field is a different field. -/
theorem exists_field_ne (P : String) : P ≠ P ++ "-exists" := by
  intro h
  have hl := congrArg String.length h
  rw [String.length_append] at hl
  have h7 : "-exists".length = 7 := by decide
  omega

/-- The mutations of a boolean value under `PackBools = P`. -/
theorem mapValue_bool (P : String) (col : Ref) (f : String) (fm : FieldMeta) (b : Bool)
    (hP : P ≠ "") :
    mapValue P col f fm (.bool b) =
      (if b then [Mutation.bit P (.key (utf8 f)) col] else [])
        ++ [Mutation.bit (P ++ "-exists") (.key (utf8 f)) col] := by
  simp [mapValue, hP]

/-- The test's index does not depend on the random topic name. -/
theorem testIndex_any_topic (t : TestCase) (topic : String) :
    testIndex t topic = testIndex t "" :=
  congrFun (testIndex_topic topic) t

/-- C8: with `PackBools = P`, a non-null boolean field `f` sets row `f` in the existence
field `P-exists`, and sets row `f` in field `P` if and only if the value is true, and
sets nothing else; a null field sets nothing; the mutations are among those of the
record. For the test record with `PackBools = "bools"`, under both rows of the test
table, field `bools` holds exactly the row `all_users` with count 1 and `bools-exists`
holds exactly the rows `all_users` and `has_deleted_date`, each with count 1. -/
theorem packBools_mutations :
    (∀ (P : String) (col : Ref) (f : String) (fm : FieldMeta) (b : Bool), P ≠ "" →
      Mutation.bit (P ++ "-exists") (.key (utf8 f)) col ∈ mapValue P col f fm (.bool b) ∧
      (Mutation.bit P (.key (utf8 f)) col ∈ mapValue P col f fm (.bool b) ↔ b = true) ∧
      (∀ m ∈ mapValue P col f fm (.bool b),
        m = Mutation.bit (P ++ "-exists") (.key (utf8 f)) col ∨
        m = Mutation.bit P (.key (utf8 f)) col)) ∧
    (∀ (P : String) (col : Ref) (f : String) (fm : FieldMeta),
      mapValue P col f fm .null = []) ∧
    (∀ (schema : SchemaDescriptor) (a : IDAssignment) (P : String) (rec : Record)
        (col : Ref) (f : String) (fm : FieldMeta) (b : Bool),
      P ≠ "" → (f, fm) ∈ schema → rec.field f = .bool b → columnRef a rec = some col →
      ∃ ms, mapRecord schema a P rec = some ms ∧
        Mutation.bit (P ++ "-exists") (.key (utf8 f)) col ∈ ms ∧
        (b = true → Mutation.bit P (.key (utf8 f)) col ∈ ms)) ∧
    (∀ topic : String,
      (tests.map fun t => (testIndex t topic).map fun idx =>
          (idx.TopN "bools" 10, idx.TopN "bools-exists" 10))
        = [some (expBools, expBoolsExists), some (expBools, expBoolsExists)]) ∧
    (tests.map fun t => (testMain t "").PackBools) = ["bools", "bools"] ∧
    (records.map fun vals => (makeRecord fields vals).map fun rec =>
        (rec.field "all_users", rec.field "has_deleted_date", rec.field "desktop_boolean"))
      = [some (.bool true, .bool false, .null)] := by
  refine ⟨?_, fun _ _ _ _ => rfl, ?_, ?_, by decide, by decide⟩
  · intro P col f fm b hP
    rw [mapValue_bool P col f fm b hP]
    refine ⟨by simp, ?_, ?_⟩
    · cases b
      · simp only [Bool.false_eq_true, if_false, List.nil_append, List.mem_singleton,
          iff_false]
        intro h
        have hf := congrArg Mutation.field h
        exact exists_field_ne P hf
      · simp
    · intro m hm
      cases b
      · simp only [Bool.false_eq_true, if_false, List.nil_append, List.mem_singleton] at hm
        exact Or.inl hm
      · simp only [if_true, List.singleton_append, List.mem_cons, List.mem_singleton,
          List.not_mem_nil, or_false] at hm
        rcases hm with hm | hm
        · exact Or.inr hm
        · exact Or.inl hm
  · intro schema a P rec col f fm b hP hf hv hc
    have hm : mapRecord schema a P rec =
        some (schema.flatMap fun g => mapValue P col g.1 g.2 (rec.field g.1)) := by
      simp only [mapRecord, hc]
    refine ⟨_, hm, ?_, ?_⟩
    · rw [List.mem_flatMap]
      refine ⟨(f, fm), hf, ?_⟩
      show _ ∈ mapValue P col f fm (rec.field f)
      rw [hv, mapValue_bool P col f fm b hP]
      simp
    · intro hb
      rw [List.mem_flatMap]
      refine ⟨(f, fm), hf, ?_⟩
      show _ ∈ mapValue P col f fm (rec.field f)
      rw [hv, mapValue_bool P col f fm b hP, hb]
      simp
  · intro topic
    simp only [testIndex_any_topic _ topic]
    decide

/-- C8 at `PackBools = "bools"`, field `has_deleted_date`, value false, column 159. -/
theorem packBools_mutations_witness :
    "bools" ≠ "" ∧
    Mutation.bit ("bools" ++ "-exists") (.key (utf8 "has_deleted_date")) (.id 159)
      ∈ mapValue "bools" (.id 159) "has_deleted_date" ⟨false, none, true⟩ (.bool false) ∧
    (Mutation.bit "bools" (.key (utf8 "has_deleted_date")) (.id 159)
      ∈ mapValue "bools" (.id 159) "has_deleted_date" ⟨false, none, true⟩ (.bool false)
        ↔ false = true) :=
  ⟨by decide,
    (packBools_mutations.1 "bools" (.id 159) "has_deleted_date" ⟨false, none, true⟩ false
      (by decide)).1,
    (packBools_mutations.1 "bools" (.id 159) "has_deleted_date" ⟨false, none, true⟩ false
      (by decide)).2.1⟩

end PDK
